import Mathlib

/-!
Verification of the `b64ct` "B64" codec: a shallow embedding of a
constant-time, unpadded Base64 ("B64") encoder/decoder operating on
caller-supplied buffers, translated from `src/b64ct/src/lib.rs`.

Byte sequences are modelled as `List Nat` (each element a `u8` value,
`< 256` stated as a hypothesis where it matters), and Rust's `isize`
arithmetic is modelled on `Int`: the values occurring in this code are
tiny, so 64-bit wrap-around never occurs and plain `Int` arithmetic is
exact.  Rust's arithmetic right shift `>>` on `isize` is `Int`'s `>>>`
(`Int.shiftRight`), and `&`, `|`, `<<` are modelled by `iand`, `ior`,
`ishl` below, which are two's-complement bitwise AND / OR / left shift
on `Int` (proved to agree with Mathlib's `Int.land`, `Int.lor` and `<<<`).
The `as u8` cast is `toU8` (reduction mod 2^8).
-/

set_option maxRecDepth 40000

namespace B64

/-- Two's-complement bitwise AND on `Int` (the `&` of Rust `isize`).
Stated with kernel-computable `Nat` operations; `iand_eq_land` below
proves it equal to Mathlib's `Int.land`. -/
def iand : Int → Int → Int
  | .ofNat m, .ofNat n => .ofNat (m &&& n)
  | .ofNat m, .negSucc n => .ofNat (m ^^^ (m &&& n))
  | .negSucc m, .ofNat n => .ofNat (n ^^^ (n &&& m))
  | .negSucc m, .negSucc n => .negSucc (m ||| n)

/-- Two's-complement bitwise OR on `Int` (the `|` of Rust `isize`). -/
def ior : Int → Int → Int
  | .ofNat m, .ofNat n => .ofNat (m ||| n)
  | .ofNat m, .negSucc n => .negSucc (n ^^^ (n &&& m))
  | .negSucc m, .ofNat n => .negSucc (m ^^^ (m &&& n))
  | .negSucc m, .negSucc n => .negSucc (m &&& n)

/-- Two's-complement left shift on `Int` (the `<<` of Rust `isize`;
no overflow occurs for the tiny values used by this code). -/
def ishl (x : Int) (n : Nat) : Int :=
  match x with
  | .ofNat m => .ofNat (m <<< n)
  | .negSucc m => .negSucc ((m + 1) <<< n - 1)

/-- The Rust `as u8` cast on an `isize` value: reduction modulo 2^8. -/
def toU8 (x : Int) : Nat := (x % 256).toNat

/-! Section: The codec, translated from `src/b64ct/src/lib.rs` -/

/-- `encoded_len` (lib.rs lines 86-90): B64-encoded length of an input of
`n` raw bytes; `q = len * 4; r = q % 3; q / 3 + (r != 0) as usize`. -/
def encoded_len (n : Nat) : Nat :=
  let q := n * 4
  let r := q % 3
  q / 3 + (if r ≠ 0 then 1 else 0)

/-- `decoded_len` (lib.rs lines 141-143): decoded length of an input of
`m` B64 symbols; `(len * 3) / 4`. -/
def decoded_len (m : Nat) : Nat :=
  m * 3 / 4

/-- `encode_6bits` (lib.rs lines 164-181): branchless map from a 6-bit
value to its B64 alphabet byte, by sign-mask threshold tests. -/
def encode_6bits (src : Int) : Nat :=
  let d0 : Int := 0x41
  let d1 := d0 + iand ((25 - src) >>> (8 : Nat)) 6
  let d2 := d1 - iand ((51 - src) >>> (8 : Nat)) 75
  let d3 := d2 - iand ((61 - src) >>> (8 : Nat)) 15
  let d4 := d3 + iand ((62 - src) >>> (8 : Nat)) 3
  toU8 (src + d4)

/-- `decode_6bits` (lib.rs lines 200-219): branchless map from a byte to
its 6-bit B64 value, or a negative sentinel when the byte is not in the
alphabet; five disjoint double-mask range contributions starting at -1. -/
def decode_6bits (src : Nat) : Int :=
  let ch : Int := src
  let r0 : Int := -1
  let r1 := r0 + iand (iand (64 - ch) (ch - 91) >>> (8 : Nat)) (ch - 64)
  let r2 := r1 + iand (iand (96 - ch) (ch - 123) >>> (8 : Nat)) (ch - 70)
  let r3 := r2 + iand (iand (47 - ch) (ch - 58) >>> (8 : Nat)) (ch + 5)
  let r4 := r3 + iand (iand (42 - ch) (ch - 44) >>> (8 : Nat)) 63
  r4 + iand (iand (46 - ch) (ch - 48) >>> (8 : Nat)) 64

/-- `encode_3bytes` (lib.rs lines 149-162): 3 raw bytes to 4 B64 bytes. -/
def encode_3bytes (s0 s1 s2 : Nat) : Nat × Nat × Nat × Nat :=
  let b0 : Int := s0
  let b1 : Int := s1
  let b2 : Int := s2
  (encode_6bits (b0 >>> (2 : Nat)),
   encode_6bits (iand (ior (ishl b0 4) (b1 >>> (4 : Nat))) 63),
   encode_6bits (iand (ior (ishl b1 2) (b2 >>> (6 : Nat))) 63),
   encode_6bits (iand b2 63))

/-- `decode_3bytes` (lib.rs lines 184-198): 4 B64 bytes to 3 raw bytes
plus the chunk's invalidity flag `((c0 | c1 | c2 | c3) >> 8) & 1`. -/
def decode_3bytes (s0 s1 s2 s3 : Nat) : (Nat × Nat × Nat) × Int :=
  let c0 := decode_6bits s0
  let c1 := decode_6bits s1
  let c2 := decode_6bits s2
  let c3 := decode_6bits s3
  ((toU8 (ior (ishl c0 2) (c1 >>> (4 : Nat))),
    toU8 (ior (ishl c1 4) (c2 >>> (2 : Nat))),
    toU8 (ior (ishl c2 6) c3)),
   iand (ior (ior (ior c0 c1) c2) c3 >>> (8 : Nat)) 1)

/-- Modelled from the spec: the error type of the `errors` module (the
module file is not under `src/`); per section 7 there are exactly two
error kinds, `InvalidLength` and `InvalidEncoding`. -/
inductive Error where
  | InvalidEncoding
  | InvalidLength
deriving DecidableEq, Repr

/-- Modelled from the spec: the dedicated length-error value returned by
`encode` (the `errors` module file is not under `src/`); it carries no
data. -/
inductive InvalidLengthError where
  | mk
deriving DecidableEq, Repr

/-- The chunk loop plus remainder handling of `encode` (lib.rs lines
52-65): full 3-byte chunks through `encode_3bytes`, then the final 1- or
2-byte remainder zero-padded to 3 bytes, encoded, and only the first
2 resp. 3 of the 4 output bytes kept. -/
def encodeChunks : List Nat → List Nat
  | b0 :: b1 :: b2 :: rest =>
      let d := encode_3bytes b0 b1 b2
      d.1 :: d.2.1 :: d.2.2.1 :: d.2.2.2 :: encodeChunks rest
  | [] => []
  | [b0] =>
      let d := encode_3bytes b0 0 0
      [d.1, d.2.1]
  | [b0, b1] =>
      let d := encode_3bytes b0 b1 0
      [d.1, d.2.1, d.2.2.1]

/-- `encode` (lib.rs lines 46-70): length check first (`InvalidLength`
if the destination is too small, before any write), then chunked
encoding into `dst[..elen]`.  The result is the pair of the returned
`Result` value and the final contents of the destination buffer. -/
def encode (src dst : List Nat) :
    Except InvalidLengthError (List Nat) × List Nat :=
  let elen := encoded_len src.length
  if elen > dst.length then (.error .mk, dst)
  else
    let out := encodeChunks src
    (.ok out, out ++ dst.drop elen)

/-- The chunk loop plus remainder handling of `decode` (lib.rs lines
102-117): full 4-byte chunks through `decode_3bytes` OR-ing each chunk
flag into the error accumulator; then the structural check (a remainder
of exactly 1 byte is invalid), and the remainder padded with `b'A'`
(65) to 4 bytes, decoded, and only the first `decoded_len` bytes kept. -/
def decodeChunks : List Nat → List Nat × Int
  | s0 :: s1 :: s2 :: s3 :: rest =>
      let r := decode_3bytes s0 s1 s2 s3
      let q := decodeChunks rest
      (r.1.1 :: r.1.2.1 :: r.1.2.2 :: q.1, ior r.2 q.2)
  | [] =>
      let r := decode_3bytes 65 65 65 65
      ([], ior 0 r.2)
  | [s0] =>
      let r := decode_3bytes s0 65 65 65
      ([], ior 1 r.2)
  | [s0, s1] =>
      let r := decode_3bytes s0 s1 65 65
      ([r.1.1], ior 0 r.2)
  | [s0, s1, s2] =>
      let r := decode_3bytes s0 s1 s2 65
      ([r.1.1, r.1.2.1], ior 0 r.2)

/-- `decode` (lib.rs lines 94-124): length check first (`InvalidLength`
if the destination is too small, before any write), then chunked
decoding into `dst[..dlen]` with a monotonic error accumulator checked
only at the end: `Ok` exactly when the accumulator is zero.  The result
is the pair of the returned `Result` value and the final contents of
the destination buffer. -/
def decode (src dst : List Nat) : Except Error (List Nat) × List Nat :=
  let dlen := decoded_len src.length
  if dlen > dst.length then (.error .InvalidLength, dst)
  else
    let r := decodeChunks src
    let dst1 := r.1 ++ dst.drop dlen
    if r.2 = 0 then (.ok r.1, dst1) else (.error .InvalidEncoding, dst1)

/-! Section: Spec-side definitions -/

/-- The fixed B64 alphabet of the spec, index to character:
`0-25` to `'A'-'Z'`, `26-51` to `'a'-'z'`, `52-61` to `'0'-'9'`,
`62` to `'+'`, `63` to `'/'`. -/
def b64Alphabet (i : Nat) : Nat :=
  if i < 26 then 65 + i
  else if i < 52 then 97 + (i - 26)
  else if i < 62 then 48 + (i - 52)
  else if i = 62 then 43 else 47

/-- Membership of a byte in the 64-character B64 alphabet. -/
def isB64 (c : Nat) : Bool :=
  (65 ≤ c && c ≤ 90) || (97 ≤ c && c ≤ 122) || (48 ≤ c && c ≤ 57) ||
    c == 43 || c == 47

/-! Section: correspondence of the modelled bitwise operations with
Mathlib's two's-complement operations on `Int` -/

theorem ldiff_eq_xor_and (m n : Nat) : Nat.ldiff m n = m ^^^ (m &&& n) := by
  apply Nat.eq_of_testBit_eq
  intro k
  simp only [Nat.testBit_ldiff, Nat.testBit_xor, Nat.testBit_and]
  cases m.testBit k <;> cases n.testBit k <;> simp

/-- `iand` agrees with Mathlib's two's-complement AND. -/
theorem iand_eq_land (x y : Int) : iand x y = Int.land x y := by
  cases x <;> cases y <;> simp [iand, Int.land, ldiff_eq_xor_and]

/-- `ior` agrees with Mathlib's two's-complement OR. -/
theorem ior_eq_lor (x y : Int) : ior x y = Int.lor x y := by
  cases x <;> cases y <;> simp [ior, Int.lor, ldiff_eq_xor_and]

theorem shiftLeftAux_true (m n : Nat) :
    Nat.shiftLeft' true m n = (m + 1) <<< n - 1 := by
  induction n with
  | zero => simp [Nat.shiftLeft', Nat.shiftLeft_eq]
  | succ k ih =>
      have hb : Nat.shiftLeft' true m (k + 1) =
          2 * Nat.shiftLeft' true m k + 1 := by
        simp [Nat.shiftLeft', Nat.bit]
      rw [hb, ih, Nat.shiftLeft_eq, Nat.shiftLeft_eq, pow_succ,
        ← Nat.mul_assoc]
      have h1 : 1 ≤ (m + 1) * 2 ^ k :=
        Nat.one_le_iff_ne_zero.mpr (by positivity)
      omega

/-- `ishl` agrees with Mathlib's two's-complement left shift on `Int`. -/
theorem ishl_eq_shiftLeft (x : Int) (n : Nat) : ishl x n = x <<< (n : Int) := by
  cases x with
  | ofNat m =>
      rw [show ((Int.ofNat m : Int) <<< (n : Int)) = ((m : Nat) : Int) <<< (n : Int) from rfl,
        Int.shiftLeft_coe_nat]
      rfl
  | negSucc m =>
      rw [Int.shiftLeft_negSucc, shiftLeftAux_true]
      rfl


/-! Section: Evaluation tables for the symbol maps -/

theorem encode_6bits_table : ∀ i < 64, encode_6bits (i : Nat) = b64Alphabet i := by
  decide

theorem decode_6bits_table : ∀ i < 64, decode_6bits (b64Alphabet i) = (i : Int) := by
  decide

theorem decode_6bits_neg : ∀ b < 256, isB64 b = false → decode_6bits b = -1 := by
  decide

theorem decode_6bits_pos : ∀ b < 256, isB64 b = true →
    decode_6bits b = (((decode_6bits b).toNat : Nat) : Int) ∧
      (decode_6bits b).toNat < 64 := by
  decide

theorem b64Alphabet_isB64 : ∀ i < 64, isB64 (b64Alphabet i) = true := by
  decide

theorem b64Alphabet_lt : ∀ i < 64, b64Alphabet i < 256 := by
  decide

/-! Section: Pushing casts through the modelled `isize` operations -/

theorem iand_coe (m n : Nat) : iand (m : Int) (n : Int) = ((m &&& n : Nat) : Int) := rfl

theorem ior_coe (m n : Nat) : ior (m : Int) (n : Int) = ((m ||| n : Nat) : Int) := rfl

theorem ishl_coe (m k : Nat) : ishl (m : Int) k = ((m <<< k : Nat) : Int) := rfl

theorem shr_coe (m k : Nat) : ((m : Int) >>> k) = ((m >>> k : Nat) : Int) := rfl

theorem toU8_coe (m : Nat) : toU8 (m : Int) = m % 256 := rfl

/-! Section: Bit-arithmetic identities on bytes, by bounded evaluation -/

theorem shr2_eq (b : Nat) : b >>> 2 = b / 4 := by
  rw [Nat.shiftRight_eq_div_pow]

theorem shr4_eq (b : Nat) : b >>> 4 = b / 16 := by
  rw [Nat.shiftRight_eq_div_pow]

theorem shr6_eq (b : Nat) : b >>> 6 = b / 64 := by
  rw [Nat.shiftRight_eq_div_pow]

theorem shr8_eq (b : Nat) : b >>> 8 = b / 256 := by
  rw [Nat.shiftRight_eq_div_pow]

theorem encArg1 : ∀ a < 256, ∀ c < 16, ((a <<< 4) ||| c) &&& 63 = a % 4 * 16 + c := by
  decide

theorem encArg2 : ∀ a < 256, ∀ c < 4, ((a <<< 2) ||| c) &&& 63 = a % 16 * 4 + c := by
  decide

theorem encArg3 : ∀ a < 256, a &&& 63 = a % 64 := by
  decide

theorem decByte0 : ∀ x < 64, ∀ y < 64, ((x <<< 2) ||| (y >>> 4)) % 256 = x * 4 + y / 16 := by
  decide

theorem decByte1 : ∀ x < 64, ∀ y < 64, ((x <<< 4) ||| (y >>> 2)) % 256 = x % 16 * 16 + y / 4 := by
  decide

theorem decByte2 : ∀ x < 64, ∀ y < 64, ((x <<< 6) ||| y) % 256 = x % 4 * 64 + y := by
  decide

theorem lor_lt_64 : ∀ x < 64, ∀ y < 64, (x ||| y) < 64 := by
  decide

/-! Section: The error accumulator takes only the values 0 and 1 -/

theorem iand_one_cases (x : Int) : iand x 1 = 0 ∨ iand x 1 = 1 := by
  cases x with
  | ofNat n =>
      have h : iand (Int.ofNat n) 1 = Int.ofNat (n &&& 1) := rfl
      rw [h, Nat.and_one_is_mod]
      rcases Nat.mod_two_eq_zero_or_one n with h2 | h2 <;> rw [h2] <;> decide
  | negSucc n =>
      have h : iand (Int.negSucc n) 1 = Int.ofNat (1 ^^^ (1 &&& n)) := rfl
      rw [h, Nat.one_and_eq_mod_two]
      rcases Nat.mod_two_eq_zero_or_one n with h2 | h2 <;> rw [h2] <;> decide

theorem ior_neg_one_left (x : Int) : ior (-1) x = -1 := by
  cases x with
  | ofNat n =>
      have h : ior (-1) (Int.ofNat n) = Int.negSucc (0 ^^^ (0 &&& n)) := rfl
      rw [h, Nat.zero_and]
      decide
  | negSucc n =>
      have h : ior (-1) (Int.negSucc n) = Int.negSucc (0 &&& n) := rfl
      rw [h, Nat.zero_and]
      decide

theorem ior_neg_one_right (x : Int) : ior x (-1) = -1 := by
  cases x with
  | ofNat n =>
      have h : ior (Int.ofNat n) (-1) = Int.negSucc (0 ^^^ (0 &&& n)) := rfl
      rw [h, Nat.zero_and]
      decide
  | negSucc n =>
      have h : ior (Int.negSucc n) (-1) = Int.negSucc (n &&& 0) := rfl
      rw [h, Nat.and_zero]
      decide

theorem decode_3bytes_err01 (s0 s1 s2 s3 : Nat) :
    (decode_3bytes s0 s1 s2 s3).2 = 0 ∨ (decode_3bytes s0 s1 s2 s3).2 = 1 := by
  simp only [decode_3bytes]
  exact iand_one_cases _

theorem ior_zero_one {x y : Int} (hx : x = 0 ∨ x = 1) (hy : y = 0 ∨ y = 1) :
    ior x y = (if x = 1 ∨ y = 1 then 1 else 0) := by
  rcases hx with h | h <;> rcases hy with h2 | h2 <;> subst h <;> subst h2 <;> decide

theorem ior_zero_zero : ior 0 0 = (0 : Int) := by decide

/-! Section: Quad-level lemmas -/

theorem encode_3bytes_eq (b0 b1 b2 : Nat) :
    encode_3bytes b0 b1 b2 =
      (encode_6bits ((b0 >>> 2 : Nat) : Int),
       encode_6bits ((((b0 <<< 4) ||| (b1 >>> 4)) &&& 63 : Nat) : Int),
       encode_6bits ((((b1 <<< 2) ||| (b2 >>> 6)) &&& 63 : Nat) : Int),
       encode_6bits ((b2 &&& 63 : Nat) : Int)) := rfl

theorem toU8_shl_shr (x y k l : Nat) :
    toU8 (ior (ishl (x : Int) k) ((y : Int) >>> l)) = ((x <<< k) ||| (y >>> l)) % 256 := rfl

theorem toU8_shl_or (x y k : Nat) :
    toU8 (ior (ishl (x : Int) k) (y : Int)) = ((x <<< k) ||| y) % 256 := rfl

theorem err_flag_coe (a b c d : Nat) :
    iand (ior (ior (ior (a : Int) b) c) d >>> (8 : Nat)) 1 =
      ((((((a ||| b) ||| c) ||| d) >>> 8) &&& 1 : Nat) : Int) := rfl

/-- `decode_3bytes` on four bytes whose `decode_6bits` values are the
naturals `v0 v1 v2 v3`, written out in `Nat` arithmetic. -/
theorem decode_3bytes_of_values {s0 s1 s2 s3 v0 v1 v2 v3 : Nat}
    (e0 : decode_6bits s0 = (v0 : Int)) (e1 : decode_6bits s1 = (v1 : Int))
    (e2 : decode_6bits s2 = (v2 : Int)) (e3 : decode_6bits s3 = (v3 : Int)) :
    decode_3bytes s0 s1 s2 s3 =
      ((((v0 <<< 2) ||| (v1 >>> 4)) % 256,
        ((v1 <<< 4) ||| (v2 >>> 2)) % 256,
        ((v2 <<< 6) ||| v3) % 256),
       ((((((v0 ||| v1) ||| v2) ||| v3) >>> 8) &&& 1 : Nat) : Int)) := by
  simp only [decode_3bytes, e0, e1, e2, e3, toU8_shl_shr, toU8_shl_or, err_flag_coe]

theorem err_flag_valid {a b c d : Nat} (ha : a < 64) (hb : b < 64)
    (hc : c < 64) (hd : d < 64) :
    ((((a ||| b) ||| c) ||| d) >>> 8) &&& 1 = 0 := by
  have h1 : (a ||| b) < 64 := lor_lt_64 a ha b hb
  have h2 : ((a ||| b) ||| c) < 64 := lor_lt_64 _ h1 c hc
  have h3 : (((a ||| b) ||| c) ||| d) < 64 := lor_lt_64 _ h2 d hd
  rw [shr8_eq, Nat.div_eq_of_lt (by omega), Nat.zero_and]

/-- Any quad containing a byte outside the alphabet decodes with error
flag 1, wherever the invalid byte sits. -/
theorem decode_3bytes_err_invalid {s0 s1 s2 s3 : Nat}
    (h0 : s0 < 256) (h1 : s1 < 256) (h2 : s2 < 256) (h3 : s3 < 256)
    (hbad : isB64 s0 = false ∨ isB64 s1 = false ∨ isB64 s2 = false ∨
      isB64 s3 = false) :
    (decode_3bytes s0 s1 s2 s3).2 = 1 := by
  have hor : ior (ior (ior (decode_6bits s0) (decode_6bits s1))
      (decode_6bits s2)) (decode_6bits s3) = -1 := by
    rcases hbad with hb | hb | hb | hb
    · rw [decode_6bits_neg s0 h0 hb, ior_neg_one_left, ior_neg_one_left,
        ior_neg_one_left]
    · rw [decode_6bits_neg s1 h1 hb, ior_neg_one_right, ior_neg_one_left,
        ior_neg_one_left]
    · rw [decode_6bits_neg s2 h2 hb, ior_neg_one_right, ior_neg_one_left]
    · rw [decode_6bits_neg s3 h3 hb, ior_neg_one_right]
  simp only [decode_3bytes]
  rw [hor]
  decide

/-- Round trip on one 3-byte chunk. -/
theorem decode_encode_3bytes {b0 b1 b2 e0 e1 e2 e3 : Nat}
    (henc : encode_3bytes b0 b1 b2 = (e0, e1, e2, e3))
    (h0 : b0 < 256) (h1 : b1 < 256) (h2 : b2 < 256) :
    decode_3bytes e0 e1 e2 e3 = ((b0, b1, b2), 0) := by
  have hv0 : b0 >>> 2 < 64 := by rw [shr2_eq]; omega
  have he1 : ((b0 <<< 4) ||| (b1 >>> 4)) &&& 63 = b0 % 4 * 16 + b1 / 16 := by
    rw [shr4_eq]; exact encArg1 b0 h0 (b1 / 16) (by omega)
  have hv1 : ((b0 <<< 4) ||| (b1 >>> 4)) &&& 63 < 64 := by rw [he1]; omega
  have he2 : ((b1 <<< 2) ||| (b2 >>> 6)) &&& 63 = b1 % 16 * 4 + b2 / 64 := by
    rw [shr6_eq]; exact encArg2 b1 h1 (b2 / 64) (by omega)
  have hv2 : ((b1 <<< 2) ||| (b2 >>> 6)) &&& 63 < 64 := by rw [he2]; omega
  have he3 : b2 &&& 63 = b2 % 64 := encArg3 b2 h2
  have hv3 : b2 &&& 63 < 64 := by rw [he3]; omega
  rw [encode_3bytes_eq] at henc
  simp only [Prod.mk.injEq] at henc
  obtain ⟨g0, g1, g2, g3⟩ := henc
  subst g0; subst g1; subst g2; subst g3
  have d0 := decode_6bits_table _ hv0
  have d1 := decode_6bits_table _ hv1
  have d2 := decode_6bits_table _ hv2
  have d3 := decode_6bits_table _ hv3
  rw [encode_6bits_table _ hv0]
  rw [encode_6bits_table _ hv1, encode_6bits_table _ hv2,
    encode_6bits_table _ hv3]
  rw [decode_3bytes_of_values d0 d1 d2 d3]
  rw [decByte0 _ hv0 _ hv1, decByte1 _ hv1 _ hv2, decByte2 _ hv2 _ hv3,
    err_flag_valid hv0 hv1 hv2 hv3]
  rw [he1, he2, he3, shr2_eq]
  simp only [Prod.mk.injEq]
  refine ⟨⟨?_, ?_, ?_⟩, rfl⟩ <;> omega

/-! Section: Length bookkeeping -/

theorem encoded_len_add3 (n : Nat) : encoded_len (n + 3) = encoded_len n + 4 := by
  simp only [encoded_len]
  split_ifs <;> omega

theorem decoded_encoded_len (n : Nat) : decoded_len (encoded_len n) = n := by
  simp only [encoded_len, decoded_len]
  split_ifs <;> omega

theorem encodeChunks_length (src : List Nat) :
    (encodeChunks src).length = encoded_len src.length := by
  induction src using encodeChunks.induct with
  | case1 b0 b1 b2 rest ih =>
      simp only [encodeChunks, List.length_cons, ih]
      have h3 : rest.length + 1 + 1 + 1 = rest.length + 3 := by omega
      rw [h3, encoded_len_add3]
  | case2 => rfl
  | case3 b0 => simp [encodeChunks, encoded_len]
  | case4 b0 b1 => simp [encodeChunks, encoded_len]

/-! Section: Round trip through the chunk loops -/

theorem decodeChunks_encodeChunks (src : List Nat) (h : ∀ b ∈ src, b < 256) :
    decodeChunks (encodeChunks src) = (src, 0) := by
  induction src using encodeChunks.induct with
  | case1 b0 b1 b2 rest ih =>
      have h0 : b0 < 256 := h b0 (by simp)
      have h1 : b1 < 256 := h b1 (by simp)
      have h2 : b2 < 256 := h b2 (by simp)
      rcases hE : encode_3bytes b0 b1 b2 with ⟨e0, e1, e2, e3⟩
      simp only [encodeChunks, hE, decodeChunks]
      rw [decode_encode_3bytes hE h0 h1 h2,
        ih (fun b hb => h b (by simp [hb]))]
      simp only [ior_zero_zero]
  | case2 =>
      simp only [encodeChunks]
      decide
  | case3 b0 =>
      have h0 : b0 < 256 := h b0 (by simp)
      have hpad1 : (encode_3bytes b0 0 0).2.2.1 = 65 := rfl
      have hpad2 : (encode_3bytes b0 0 0).2.2.2 = 65 := rfl
      have hrt : decode_3bytes (encode_3bytes b0 0 0).1 (encode_3bytes b0 0 0).2.1
          (encode_3bytes b0 0 0).2.2.1 (encode_3bytes b0 0 0).2.2.2 =
          ((b0, 0, 0), 0) :=
        decode_encode_3bytes rfl h0 (by omega) (by omega)
      rw [hpad1, hpad2] at hrt
      simp only [encodeChunks, decodeChunks, hrt]
      simp only [ior_zero_zero]
  | case4 b0 b1 =>
      have h0 : b0 < 256 := h b0 (by simp)
      have h1 : b1 < 256 := h b1 (by simp)
      have hpad2 : (encode_3bytes b0 b1 0).2.2.2 = 65 := rfl
      have hrt : decode_3bytes (encode_3bytes b0 b1 0).1 (encode_3bytes b0 b1 0).2.1
          (encode_3bytes b0 b1 0).2.2.1 (encode_3bytes b0 b1 0).2.2.2 =
          ((b0, b1, 0), 0) :=
        decode_encode_3bytes rfl h0 h1 (by omega)
      rw [hpad2] at hrt
      simp only [encodeChunks, decodeChunks, hrt]
      simp only [ior_zero_zero]

/-! Section: The error accumulator over the whole input -/

theorem decodeChunks_err01 (src : List Nat) :
    (decodeChunks src).2 = 0 ∨ (decodeChunks src).2 = 1 := by
  induction src using decodeChunks.induct with
  | case1 s0 s1 s2 s3 rest ih =>
      simp only [decodeChunks]
      rw [ior_zero_one (decode_3bytes_err01 s0 s1 s2 s3) ih]
      split_ifs <;> simp
  | case2 =>
      simp only [decodeChunks]
      rw [ior_zero_one (Or.inl rfl) (decode_3bytes_err01 65 65 65 65)]
      split_ifs <;> simp
  | case3 s0 =>
      simp only [decodeChunks]
      rw [ior_zero_one (Or.inr rfl) (decode_3bytes_err01 s0 65 65 65)]
      split_ifs <;> simp
  | case4 s0 s1 =>
      simp only [decodeChunks]
      rw [ior_zero_one (Or.inl rfl) (decode_3bytes_err01 s0 s1 65 65)]
      split_ifs <;> simp
  | case5 s0 s1 s2 =>
      simp only [decodeChunks]
      rw [ior_zero_one (Or.inl rfl) (decode_3bytes_err01 s0 s1 s2 65)]
      split_ifs <;> simp

/-- A trailing group of exactly one symbol always pollutes the error
accumulator: length 1 mod 4 decodes invalid for any content. -/
theorem decodeChunks_err_mod4 (src : List Nat) (h : src.length % 4 = 1) :
    (decodeChunks src).2 = 1 := by
  induction src using decodeChunks.induct with
  | case1 s0 s1 s2 s3 rest ih =>
      have hr : rest.length % 4 = 1 := by
        simp only [List.length_cons] at h
        omega
      simp only [decodeChunks]
      rw [ior_zero_one (decode_3bytes_err01 s0 s1 s2 s3) (Or.inr (ih hr)),
        if_pos (Or.inr (ih hr))]
  | case2 => simp at h
  | case3 s0 =>
      simp only [decodeChunks]
      rw [ior_zero_one (Or.inr rfl) (decode_3bytes_err01 s0 65 65 65),
        if_pos (Or.inl rfl)]
  | case4 s0 s1 => simp at h
  | case5 s0 s1 s2 => simp at h

/-- A byte outside the alphabet anywhere in the input pollutes the error
accumulator. -/
theorem decodeChunks_err_invalid (src : List Nat) (h : ∀ b ∈ src, b < 256)
    (hbad : ∃ b ∈ src, isB64 b = false) : (decodeChunks src).2 = 1 := by
  induction src using decodeChunks.induct with
  | case1 s0 s1 s2 s3 rest ih =>
      simp only [decodeChunks]
      obtain ⟨b, hb, hbF⟩ := hbad
      simp only [List.mem_cons] at hb
      rcases hb with rfl | rfl | rfl | rfl | hb
      · have herr : (decode_3bytes b s1 s2 s3).2 = 1 :=
          decode_3bytes_err_invalid (h b (by simp)) (h s1 (by simp))
            (h s2 (by simp)) (h s3 (by simp)) (Or.inl hbF)
        rw [ior_zero_one (Or.inr herr) (decodeChunks_err01 rest),
          if_pos (Or.inl herr)]
      · have herr : (decode_3bytes s0 b s2 s3).2 = 1 :=
          decode_3bytes_err_invalid (h s0 (by simp)) (h b (by simp))
            (h s2 (by simp)) (h s3 (by simp)) (Or.inr (Or.inl hbF))
        rw [ior_zero_one (Or.inr herr) (decodeChunks_err01 rest),
          if_pos (Or.inl herr)]
      · have herr : (decode_3bytes s0 s1 b s3).2 = 1 :=
          decode_3bytes_err_invalid (h s0 (by simp)) (h s1 (by simp))
            (h b (by simp)) (h s3 (by simp)) (Or.inr (Or.inr (Or.inl hbF)))
        rw [ior_zero_one (Or.inr herr) (decodeChunks_err01 rest),
          if_pos (Or.inl herr)]
      · have herr : (decode_3bytes s0 s1 s2 b).2 = 1 :=
          decode_3bytes_err_invalid (h s0 (by simp)) (h s1 (by simp))
            (h s2 (by simp)) (h b (by simp)) (Or.inr (Or.inr (Or.inr hbF)))
        rw [ior_zero_one (Or.inr herr) (decodeChunks_err01 rest),
          if_pos (Or.inl herr)]
      · have hrest : (decodeChunks rest).2 = 1 :=
          ih (fun b2 hb2 => h b2 (by simp [hb2])) ⟨b, hb, hbF⟩
        rw [ior_zero_one (decode_3bytes_err01 s0 s1 s2 s3) (Or.inr hrest),
          if_pos (Or.inr hrest)]
  | case2 =>
      obtain ⟨b, hb, _⟩ := hbad
      simp at hb
  | case3 s0 =>
      simp only [decodeChunks]
      rw [ior_zero_one (Or.inr rfl) (decode_3bytes_err01 s0 65 65 65),
        if_pos (Or.inl rfl)]
  | case4 s0 s1 =>
      simp only [decodeChunks]
      obtain ⟨b, hb, hbF⟩ := hbad
      simp only [List.mem_cons, List.not_mem_nil, or_false] at hb
      have herr : (decode_3bytes s0 s1 65 65).2 = 1 := by
        apply decode_3bytes_err_invalid (h s0 (by simp)) (h s1 (by simp))
          (by omega) (by omega)
        rcases hb with rfl | rfl
        · exact Or.inl hbF
        · exact Or.inr (Or.inl hbF)
      rw [ior_zero_one (Or.inl rfl) (Or.inr herr), if_pos (Or.inr herr)]
  | case5 s0 s1 s2 =>
      simp only [decodeChunks]
      obtain ⟨b, hb, hbF⟩ := hbad
      simp only [List.mem_cons, List.not_mem_nil, or_false] at hb
      have herr : (decode_3bytes s0 s1 s2 65).2 = 1 := by
        apply decode_3bytes_err_invalid (h s0 (by simp)) (h s1 (by simp))
          (h s2 (by simp)) (by omega)
        rcases hb with rfl | rfl | rfl
        · exact Or.inl hbF
        · exact Or.inr (Or.inl hbF)
        · exact Or.inr (Or.inr (Or.inl hbF))
      rw [ior_zero_one (Or.inl rfl) (Or.inr herr), if_pos (Or.inr herr)]

/-! Section: Every encoded byte is an alphabet byte -/

theorem encode_3bytes_isB64 {b0 b1 b2 e0 e1 e2 e3 : Nat}
    (henc : encode_3bytes b0 b1 b2 = (e0, e1, e2, e3))
    (h0 : b0 < 256) (h1 : b1 < 256) (h2 : b2 < 256) :
    isB64 e0 = true ∧ isB64 e1 = true ∧ isB64 e2 = true ∧ isB64 e3 = true := by
  have hv0 : b0 >>> 2 < 64 := by rw [shr2_eq]; omega
  have hv1 : ((b0 <<< 4) ||| (b1 >>> 4)) &&& 63 < 64 := by
    rw [shr4_eq, encArg1 b0 h0 (b1 / 16) (by omega)]; omega
  have hv2 : ((b1 <<< 2) ||| (b2 >>> 6)) &&& 63 < 64 := by
    rw [shr6_eq, encArg2 b1 h1 (b2 / 64) (by omega)]; omega
  have hv3 : b2 &&& 63 < 64 := by rw [encArg3 b2 h2]; omega
  rw [encode_3bytes_eq] at henc
  simp only [Prod.mk.injEq] at henc
  obtain ⟨g0, g1, g2, g3⟩ := henc
  subst g0; subst g1; subst g2; subst g3
  rw [encode_6bits_table _ hv0, encode_6bits_table _ hv1,
    encode_6bits_table _ hv2, encode_6bits_table _ hv3]
  exact ⟨b64Alphabet_isB64 _ hv0, b64Alphabet_isB64 _ hv1,
    b64Alphabet_isB64 _ hv2, b64Alphabet_isB64 _ hv3⟩

theorem encodeChunks_mem (src : List Nat) (h : ∀ b ∈ src, b < 256) :
    ∀ c ∈ encodeChunks src, isB64 c = true := by
  induction src using encodeChunks.induct with
  | case1 b0 b1 b2 rest ih =>
      have h0 : b0 < 256 := h b0 (by simp)
      have h1 : b1 < 256 := h b1 (by simp)
      have h2 : b2 < 256 := h b2 (by simp)
      rcases hE : encode_3bytes b0 b1 b2 with ⟨e0, e1, e2, e3⟩
      obtain ⟨q0, q1, q2, q3⟩ := encode_3bytes_isB64 hE h0 h1 h2
      intro c hc
      simp only [encodeChunks, hE, List.mem_cons] at hc
      rcases hc with rfl | rfl | rfl | rfl | hc
      · exact q0
      · exact q1
      · exact q2
      · exact q3
      · exact ih (fun b hb => h b (by simp [hb])) c hc
  | case2 => intro c hc; simp [encodeChunks] at hc
  | case3 b0 =>
      have h0 : b0 < 256 := h b0 (by simp)
      rcases hE : encode_3bytes b0 0 0 with ⟨e0, e1, e2, e3⟩
      obtain ⟨q0, q1, q2, q3⟩ := encode_3bytes_isB64 hE h0 (by omega) (by omega)
      intro c hc
      simp only [encodeChunks, hE, List.mem_cons, List.not_mem_nil,
        or_false] at hc
      rcases hc with rfl | rfl
      · exact q0
      · exact q1
  | case4 b0 b1 =>
      have h0 : b0 < 256 := h b0 (by simp)
      have h1 : b1 < 256 := h b1 (by simp)
      rcases hE : encode_3bytes b0 b1 0 with ⟨e0, e1, e2, e3⟩
      obtain ⟨q0, q1, q2, q3⟩ := encode_3bytes_isB64 hE h0 h1 (by omega)
      intro c hc
      simp only [encodeChunks, hE, List.mem_cons, List.not_mem_nil,
        or_false] at hc
      rcases hc with rfl | rfl | rfl
      · exact q0
      · exact q1
      · exact q2

/-! Section: The claims -/

/-- C1: for every raw byte sequence `b`, encoding `b` into a buffer of
size `encoded_len b` succeeds, and decoding the resulting string into a
buffer of size `decoded_len` of its length succeeds and returns exactly
`b` (`decode(encode(b)) == b`). -/
theorem claim1_round_trip (src : List Nat) (h : ∀ b ∈ src, b < 256) :
    ∃ enc : List Nat,
      encode src (List.replicate (encoded_len src.length) 0) =
        (Except.ok enc, enc) ∧
      decode enc (List.replicate (decoded_len enc.length) 0) =
        (Except.ok src, src) := by
  refine ⟨encodeChunks src, ?_, ?_⟩
  · simp only [encode, List.length_replicate]
    rw [if_neg (by omega), List.drop_eq_nil_of_le (by simp), List.append_nil]
  · have hlen := encodeChunks_length src
    have hrt := decodeChunks_encodeChunks src h
    simp only [decode, List.length_replicate]
    rw [if_neg (by omega), hrt]
    rw [List.drop_eq_nil_of_le (by simp), List.append_nil]
    rw [if_pos rfl]

/-- C1 witness: the round trip at the concrete input `[0, 1, 250]`. -/
theorem claim1_round_trip_witness :
    (∀ b ∈ ([0, 1, 250] : List Nat), b < 256) ∧
    (∃ enc : List Nat,
      encode [0, 1, 250]
          (List.replicate (encoded_len (List.length [0, 1, 250])) 0) =
        (Except.ok enc, enc) ∧
      decode enc (List.replicate (decoded_len enc.length) 0) =
        (Except.ok [0, 1, 250], [0, 1, 250])) :=
  ⟨by decide, claim1_round_trip [0, 1, 250] (by decide)⟩

/-- C2: `encoded_len` is exactly the ceiling of `4 n / 3` for every
non-negative length `n`. -/
theorem claim2_encoded_len_ceil (n : Nat) :
    encoded_len n = ⌈(4 * n : ℚ) / 3⌉₊ := by
  have key : 4 * n ≤ 3 * encoded_len n ∧ 3 * encoded_len n < 4 * n + 3 := by
    simp only [encoded_len]
    split_ifs <;> omega
  rcases Nat.eq_zero_or_pos n with rfl | hn
  · simp [encoded_len]
  · obtain ⟨k, hk⟩ : ∃ k, encoded_len n = k + 1 := ⟨encoded_len n - 1, by omega⟩
    rw [hk]
    apply le_antisymm
    · rw [Nat.add_one_le_iff]
      apply Nat.lt_ceil.mpr
      rw [lt_div_iff₀ (by norm_num : (0 : ℚ) < 3)]
      have harith : k * 3 < 4 * n := by omega
      exact_mod_cast harith
    · apply Nat.ceil_le.mpr
      rw [div_le_iff₀ (by norm_num : (0 : ℚ) < 3)]
      have harith : 4 * n ≤ (k + 1) * 3 := by omega
      exact_mod_cast harith

/-- C3: `decoded_len` is exactly the floor of `3 m / 4` for every
non-negative symbol count `m` (total, including `m % 4 = 1`). -/
theorem claim3_decoded_len_floor (m : Nat) :
    decoded_len m = ⌊(3 * m : ℚ) / 4⌋₊ := by
  have h1 : decoded_len m = 3 * m / 4 := by
    simp only [decoded_len]
    omega
  have h2 : ⌊((3 * m : Nat) : ℚ) / ((4 : Nat) : ℚ)⌋₊ = 3 * m / 4 :=
    Nat.floor_div_eq_div (3 * m) 4
  rw [h1, ← h2]
  norm_cast

/-- C4: the symbol encoder realises the fixed table `0-25` to `'A'-'Z'`,
`26-51` to `'a'-'z'`, `52-61` to `'0'-'9'`, `62` to `'+'`, `63` to `'/'`
on every 6-bit value, and every byte written by `encode` lies in that
64-character alphabet. -/
theorem claim4_alphabet :
    (∀ i : Nat, i < 64 → encode_6bits (i : Nat) = b64Alphabet i) ∧
    (∀ src dst out : List Nat, (∀ b ∈ src, b < 256) →
      (encode src dst).1 = Except.ok out → ∀ c ∈ out, isB64 c = true) := by
  refine ⟨encode_6bits_table, ?_⟩
  intro src dst out h hok c hc
  have hout : encodeChunks src = out := by
    simp only [encode] at hok
    by_cases hcond : encoded_len src.length > dst.length
    · rw [if_pos hcond] at hok
      simp at hok
    · rw [if_neg hcond] at hok
      simpa using hok
  exact encodeChunks_mem src h c (hout ▸ hc)

/-- C4 witness: the table at 62, and the bytes written when encoding the
single byte `0xFF` (giving `"/w"`, i.e. `[47, 119]`). -/
theorem claim4_alphabet_witness :
    encode_6bits (62 : Nat) = b64Alphabet 62 ∧
    (∀ c ∈ ([47, 119] : List Nat), isB64 c = true) :=
  ⟨claim4_alphabet.1 62 (by decide),
   claim4_alphabet.2 [255] [0, 0] [47, 119] (by decide) rfl⟩

/-- C5: on every byte, the symbol decoder returns the correct 6-bit
alphabet index in `[0, 63]` for the 64 alphabet bytes, and for every
other byte it stays at `-1`, a value whose `0x100` bit is set. -/
theorem claim5_decode_6bits (b : Nat) (hb : b < 256) :
    (isB64 b = true →
      ∃ i, i < 64 ∧ b64Alphabet i = b ∧ decode_6bits b = (i : Int)) ∧
    (isB64 b = false →
      decode_6bits b = -1 ∧ iand (decode_6bits b) 256 = 256) := by
  revert b
  decide

/-- C5 witness: the decoder at the alphabet byte `'+'` (43) and at the
non-alphabet byte `'='` (61). -/
theorem claim5_decode_6bits_witness :
    (∃ i, i < 64 ∧ b64Alphabet i = 43 ∧ decode_6bits 43 = (i : Int)) ∧
    (decode_6bits 61 = -1 ∧ iand (decode_6bits 61) 256 = 256) :=
  ⟨(claim5_decode_6bits 43 (by decide)).1 (by decide),
   (claim5_decode_6bits 61 (by decide)).2 (by decide)⟩

/-- C6: decoding any input containing at least one byte outside the
alphabet fails with `InvalidEncoding`, wherever that byte occurs, as
long as the output buffer passes the length check. -/
theorem claim6_invalid_byte (src dst : List Nat) (h : ∀ b ∈ src, b < 256)
    (hbad : ∃ b ∈ src, isB64 b = false)
    (hdst : decoded_len src.length ≤ dst.length) :
    (decode src dst).1 = Except.error Error.InvalidEncoding := by
  simp only [decode]
  rw [if_neg (by omega), decodeChunks_err_invalid src h hbad,
    if_neg (by decide)]

/-- C6 witness: decoding `"A="` (`[65, 61]`, the `'='` is not in the
alphabet) with a large enough buffer. -/
theorem claim6_invalid_byte_witness :
    ((∀ b ∈ ([65, 61] : List Nat), b < 256) ∧
      (∃ b ∈ ([65, 61] : List Nat), isB64 b = false) ∧
      decoded_len (List.length ([65, 61] : List Nat)) ≤
        List.length ([0] : List Nat)) ∧
    (decode [65, 61] [0]).1 = Except.error Error.InvalidEncoding :=
  ⟨⟨by decide, by decide, by decide⟩,
   claim6_invalid_byte [65, 61] [0] (by decide) (by decide) (by decide)⟩

/-- C7: decoding any input whose length is 1 mod 4 fails with
`InvalidEncoding`, for any content, as long as the output buffer passes
the length check. -/
theorem claim7_length_mod4 (src dst : List Nat) (hlen : src.length % 4 = 1)
    (hdst : decoded_len src.length ≤ dst.length) :
    (decode src dst).1 = Except.error Error.InvalidEncoding := by
  simp only [decode]
  rw [if_neg (by omega), decodeChunks_err_mod4 src hlen, if_neg (by decide)]

/-- C7 witness: decoding the single valid byte `"B"` (`[66]`). -/
theorem claim7_length_mod4_witness :
    (List.length ([66] : List Nat) % 4 = 1 ∧
      decoded_len (List.length ([66] : List Nat)) ≤
        List.length ([] : List Nat)) ∧
    (decode [66] []).1 = Except.error Error.InvalidEncoding :=
  ⟨⟨by decide, by decide⟩, claim7_length_mod4 [66] [] (by decide) (by decide)⟩

/-- C8: for both directions, a destination buffer smaller than the exact
required size gives `InvalidLength` with the buffer left untouched, and
a buffer of at least the required size never gives `InvalidLength`. -/
theorem claim8_invalid_length (src dst : List Nat) :
    (dst.length < encoded_len src.length →
      encode src dst = (Except.error InvalidLengthError.mk, dst)) ∧
    (encoded_len src.length ≤ dst.length →
      ∃ out, (encode src dst).1 = Except.ok out) ∧
    (dst.length < decoded_len src.length →
      decode src dst = (Except.error Error.InvalidLength, dst)) ∧
    (decoded_len src.length ≤ dst.length →
      (decode src dst).1 ≠ Except.error Error.InvalidLength) := by
  refine ⟨?_, ?_, ?_, ?_⟩ <;> intro hh
  · simp only [encode]
    rw [if_pos (by omega)]
  · simp only [encode]
    rw [if_neg (by omega)]
    exact ⟨encodeChunks src, rfl⟩
  · simp only [decode]
    rw [if_pos (by omega)]
  · simp only [decode]
    rw [if_neg (by omega)]
    split_ifs <;> simp

/-- C8 witness: encoding 3 bytes into a 3-byte buffer (one short of the
required 4) fails untouched; decoding 4 valid bytes into a 3-byte buffer
does not give `InvalidLength`. -/
theorem claim8_invalid_length_witness :
    (List.length ([0, 0, 0] : List Nat) <
        encoded_len (List.length ([1, 2, 3] : List Nat)) ∧
      encode [1, 2, 3] [0, 0, 0] =
        (Except.error InvalidLengthError.mk, [0, 0, 0])) ∧
    (decoded_len (List.length ([65, 66, 67, 68] : List Nat)) ≤
        List.length ([0, 0, 0] : List Nat) ∧
      (decode [65, 66, 67, 68] [0, 0, 0]).1 ≠
        Except.error Error.InvalidLength) :=
  ⟨⟨by decide, (claim8_invalid_length [1, 2, 3] [0, 0, 0]).1 (by decide)⟩,
   ⟨by decide,
    (claim8_invalid_length [65, 66, 67, 68] [0, 0, 0]).2.2.2 (by decide)⟩⟩

/-- C10: decode accepts non-canonical encodings: the distinct valid
inputs `"AB"` (`[65, 66]`) and `"AA"` (`[65, 65]`) both decode
successfully to the same byte sequence `[0]`, so decode is not injective
on the strings it accepts (the trailing bits of a final partial group
are never checked to be zero). -/
theorem claim10_non_injective :
    decode [65, 66] [0] = (Except.ok [0], [0]) ∧
    decode [65, 65] [0] = (Except.ok [0], [0]) ∧
    ([65, 66] : List Nat) ≠ [65, 65] :=
  ⟨rfl, rfl, by decide⟩

end B64
